import Mathlib

/-!
Verification development for the Qwen3-ASR ONNX export tool
(`tools/export-qwen3-onnx/export_qwen3_asr_onnx.py`).

The Python source is shallowly embedded: tensors on the weight-store side
are records carrying a dtype tag, a flat data list and a shape; the
safetensors shards are lookup functions that either return a tensor or
fail with a message; Python exceptions become `Except` errors.  The
numeric decoder/encoder math is embedded over `ℝ` further below.
-/

namespace Qwen3Export

/-- Tensor dtypes relevant to the exporter (torch dtypes). -/
inductive DType where
  | float32
  | float16
  | bfloat16
  | int64
deriving DecidableEq

/-- A tensor as seen by the weight-loading code: a dtype tag, the flat
element data and the shape.  Element values live in `ℝ`. -/
structure Tensor where
  dtype : DType
  data : List ℝ
  shape : List ℕ

/-- Python exceptions raised by the exporter's weight/validation paths. -/
inductive PyErr where
  | keyError (key : String)
  | weightNotFound (name : String)
  | shardError (msg : String)
  | assertionError (msg : String)
deriving DecidableEq

/-- A safetensors shard handle: `get_tensor` by name either succeeds or
raises some exception (modelled as an arbitrary message). -/
abbrev Shard : Type := String → Except String Tensor

/-- Embeds `MultiSafetensors.__init__`'s result: the open shard handles
(dict, in insertion order) and the optional `weight_map` from
`model.safetensors.index.json` (`none` when there is no index file). -/
structure MultiSafetensors where
  files : List (String × Shard)
  weight_map : Option (List (String × String))

/-- The fallback loop of `MultiSafetensors.get_tensor`: try every shard in
order, swallowing any exception, and finally raise
`KeyError(f"Weight not found: {name}")`. -/
def tryShards : List (String × Shard) → String → Except PyErr Tensor
  | [], name => .error (.weightNotFound name)
  | (_, sf) :: rest, name =>
    match sf name with
    | .ok t => .ok t
    | .error _ => tryShards rest name

/-- Embeds `MultiSafetensors.get_tensor` (source lines 94-103).  With a
truthy (non-`None`, non-empty) `weight_map`, `self.weight_map[name]` is a
plain dict lookup whose failure is `KeyError(name)`; the shard's own
`get_tensor` exception propagates uncaught.  Otherwise the fallback loop
runs. -/
def MultiSafetensors.get_tensor (st : MultiSafetensors) (name : String) :
    Except PyErr Tensor :=
  match st.weight_map with
  | some wm =>
    if wm = [] then tryShards st.files name
    else
      match wm.lookup name with
      | none => .error (.keyError name)
      | some shard =>
        match st.files.lookup shard with
        | none => .error (.keyError shard)
        | some sf => (sf name).mapError PyErr.shardError
  | none => tryShards st.files name

/-- Embeds `get_weight` (source lines 106-110): fetch by name and upcast
`bfloat16` (and only `bfloat16`) to `float32`. -/
def get_weight (st : MultiSafetensors) (name : String) : Except PyErr Tensor :=
  (st.get_tensor name).map
    (fun t => if t.dtype = DType.bfloat16 then Tensor.mk DType.float32 t.data t.shape else t)

/-- The fully-qualified decoder weight names for layer `i`, in the order
`load_decoder_weights` fetches them (source lines 479-489). -/
def decoderLayerNames (i : ℕ) : List String :=
  let lp := "thinker.model.layers." ++ toString i
  [lp ++ ".input_layernorm.weight",
   lp ++ ".self_attn.q_proj.weight",
   lp ++ ".self_attn.k_proj.weight",
   lp ++ ".self_attn.v_proj.weight",
   lp ++ ".self_attn.o_proj.weight",
   lp ++ ".self_attn.q_norm.weight",
   lp ++ ".self_attn.k_norm.weight",
   lp ++ ".post_attention_layernorm.weight",
   lp ++ ".mlp.gate_proj.weight",
   lp ++ ".mlp.up_proj.weight",
   lp ++ ".mlp.down_proj.weight"]

/-- All decoder weight names in fetch order: per-layer names for layers
`0..nLayers-1`, then the final norm and the vocabulary projection
(source lines 476-494). -/
def decoderWeightNames (nLayers : ℕ) : List String :=
  (List.range nLayers).flatMap decoderLayerNames ++
    ["thinker.model.norm.weight", "thinker.lm_head.weight"]

/-- Sequential weight fetching: each name is resolved with `get_weight`
in order, and the first exception aborts the remaining assignments,
exactly as the straight-line Python assignments do. -/
def loadWeights (st : MultiSafetensors) : List String → Except PyErr (List Tensor)
  | [] => .ok []
  | n :: ns =>
    match get_weight st n with
    | .error e => .error e
    | .ok t =>
      match loadWeights st ns with
      | .error e => .error e
      | .ok ts => .ok (t :: ts)

/-- Embeds `load_decoder_weights` (source lines 472-496) at the level of
which store tensors are bound, in fetch order. -/
def loadDecoderWeights (st : MultiSafetensors) (nLayers : ℕ) :
    Except PyErr (List Tensor) :=
  loadWeights st (decoderWeightNames nLayers)

/-- A name is absent from the store: with a truthy index it is missing
from `weight_map`; without one (or with an empty index dict) every shard
read for it raises. -/
def absentFrom (st : MultiSafetensors) (name : String) : Prop :=
  match st.weight_map with
  | some wm =>
    if wm = [] then ∀ p ∈ st.files, ∃ msg, p.2 name = Except.error msg
    else wm.lookup name = none
  | none => ∀ p ∈ st.files, ∃ msg, p.2 name = Except.error msg

/-- The error identifies the missing weight name (both the plain
`KeyError(name)` of the indexed path and the
`KeyError("Weight not found: name")` of the fallback path do). -/
def errNamesWeight : PyErr → String → Prop
  | PyErr.keyError k, n => k = n
  | PyErr.weightNotFound m, n => m = n
  | _, _ => False

/-- Embeds the command-line surface relevant here: `--skip-validation`
is a `store_true` flag (source line 639). -/
structure ExportArgs where
  skipValidation : Bool

/-- argparse on the given argv: the flag is set iff present. -/
def parseArgs (argv : List String) : ExportArgs :=
  ExportArgs.mk (argv.contains "--skip-validation")

/-- Embeds the decoder validation tail of `export_decoder` (source lines
597-613): `assert diff < 1e-4` where `diff` is the max absolute
difference between the torch outputs and the onnxruntime outputs. -/
def decoderValidate (diff : ℚ) : Except PyErr Unit :=
  if diff < 1 / 10000 then .ok () else .error (.assertionError "Decoder validation failed")

/-- Embeds the decoder stage of `main` (source lines 667-671): build the
decoder, bind weights with `load_decoder_weights` (an exception aborts),
then `export_decoder`, whose validation runs unconditionally — the
parsed `args.skip_validation` is never consulted anywhere after line
639, so it does not appear in the data flow. -/
def exportDecoderStage (st : MultiSafetensors) (nLayers : ℕ)
    (_args : ExportArgs) (diff : ℚ) : Except PyErr Unit :=
  match loadDecoderWeights st nLayers with
  | .error e => .error e
  | .ok _ => decoderValidate diff

/-- Serialization of a tensor by `numpy.tofile` (source lines 618-626):
the flat data, row-major, each element rendered by a fixed per-element
float32 byte encoding, with no header. -/
def tensorBytes (enc : ℝ → List ℕ) (t : Tensor) : List ℕ :=
  t.data.flatMap enc

/-- Embeds `export_embeddings` (source lines 618-626): fetch
`thinker.model.embed_tokens.weight` through `get_weight` and write its
raw float32 bytes. -/
def export_embeddings (enc : ℝ → List ℕ) (st : MultiSafetensors) :
    Except PyErr (List ℕ) :=
  (get_weight st "thinker.model.embed_tokens.weight").map (tensorBytes enc)

/-- Output length of one dimension of `nn.Conv2d` with kernel `k`,
stride `s`, padding `p` on input length `n` (the standard
`floor((n + 2p - k)/s) + 1` rule; the encoder stem uses `k = 3`,
`s = 2`, `p = 1`, source lines 182-184). -/
def convOutLen (n k s p : ℕ) : ℕ := (n + 2 * p - k) / s + 1

/-- One axis after the three-stage conv stem of `Qwen3ASREncoder`
(source lines 209-212): three 3x3, stride-2, padding-1 convolutions. -/
def convStem3 (n : ℕ) : ℕ :=
  convOutLen (convOutLen (convOutLen n 3 2 1) 3 2 1) 3 2 1

/-- The encoder's output sequence length for `T` input mel frames: the
conv stem sets the time axis, and the flatten/linear/positional/
transformer/projector stages (source lines 214-233) all preserve the
time-step count. -/
def encoderOutLen (T : ℕ) : ℕ := convStem3 T

/-! Decoder math, embedded over `ℝ`.  A vector is a `List ℝ`; a matrix
is its list of rows; a per-head sequence tensor (one head, `dim 2` of a
torch `[1, heads, seq, head_dim]` tensor) is a `List Vec` in sequence
order; a multi-head tensor is the head-major list of those. -/

/-- A vector of reals. -/
abbrev Vec := List ℝ

/-- A matrix as its list of rows. -/
abbrev Mat := List Vec

/-- Dot product. -/
noncomputable def dot (x y : Vec) : ℝ := (List.zipWith (fun a b => a * b) x y).sum

/-- `nn.Linear` without bias: matrix-vector product. -/
noncomputable def matVec (W : Mat) (x : Vec) : Vec := W.map (fun row => dot row x)

/-- Embeds `RMSNorm.forward` (source lines 248-253):
`weight * (x * rsqrt(mean(x^2) + eps))`. -/
noncomputable def rmsnorm (w : Vec) (eps : ℝ) (x : Vec) : Vec :=
  let variance := (x.map (fun a => a ^ 2)).sum / (x.length : ℝ)
  List.zipWith (fun wi xi => wi * xi) w (x.map (fun a => a * (Real.sqrt (variance + eps))⁻¹))

/-- Embeds the `inv_freq` buffer of `RotaryEmbedding.__init__` (source
line 259): `1 / theta ** (arange(0, head_dim, 2) / head_dim)`. -/
noncomputable def invFreq (theta : ℝ) (headDim : ℕ) : List ℝ :=
  (List.range' 0 ((headDim + 1) / 2) 2).map
    (fun i => 1 / theta ^ ((Nat.cast i : ℝ) / (headDim : ℝ)))

/-- The per-position angle row `position * inv_freq` of
`RotaryEmbedding.forward` (source line 267). -/
noncomputable def rotaryAngles (theta : ℝ) (headDim : ℕ) (p : ℝ) : List ℝ :=
  (invFreq theta headDim).map (fun f => p * f)

/-- The duplicated angle row `emb = cat([angles, angles])` (source line
268). -/
noncomputable def rotaryEmbRow (theta : ℝ) (headDim : ℕ) (p : ℝ) : List ℝ :=
  rotaryAngles theta headDim p ++ rotaryAngles theta headDim p

/-- One row of the cos table returned by `RotaryEmbedding.forward`. -/
noncomputable def rotaryCos (theta : ℝ) (headDim : ℕ) (p : ℝ) : List ℝ :=
  (rotaryEmbRow theta headDim p).map Real.cos

/-- One row of the sin table returned by `RotaryEmbedding.forward`. -/
noncomputable def rotarySin (theta : ℝ) (headDim : ℕ) (p : ℝ) : List ℝ :=
  (rotaryEmbRow theta headDim p).map Real.sin

/-- Embeds `RotaryEmbedding.forward` (source lines 263-269) on a
sequence of integer position ids: the cos rows and sin rows. -/
noncomputable def rotaryForward (theta : ℝ) (headDim : ℕ) (posIds : List ℤ) :
    List Vec × List Vec :=
  (posIds.map (fun p => rotaryCos theta headDim (Int.cast p)),
   posIds.map (fun p => rotarySin theta headDim (Int.cast p)))

/-- The `rotated = cat([-x2, x1])` half-split of `apply_rotary_pos_emb`
(source lines 276-279), with `half = len(x) / 2`. -/
noncomputable def rotateHalf (x : Vec) : Vec :=
  ((x.drop (x.length / 2)).map (fun a => -a)) ++ x.take (x.length / 2)

/-- Embeds `apply_rotary_pos_emb` on one position's head vector (source
lines 272-280): `x * cos + rotated * sin`. -/
noncomputable def applyRotaryPosEmb (x cosV sinV : Vec) : Vec :=
  List.zipWith (fun a b => a + b)
    (List.zipWith (fun a b => a * b) x cosV)
    (List.zipWith (fun a b => a * b) (rotateHalf x) sinV)

/-- `zipWith` over three lists, truncating at the shortest. -/
def zipWith3 {α β γ δ : Type} (f : α → β → γ → δ) :
    List α → List β → List γ → List δ
  | a :: as, b :: bs, c :: cs => f a b c :: zipWith3 f as bs cs
  | _, _, _ => []

/-- Rotary application across a sequence: position `s` uses the cos/sin
rows for position id `s` (the broadcast over `dim 2` in the source). -/
noncomputable def ropeSeq (cosL sinL : List Vec) (xs : List Vec) : List Vec :=
  zipWith3 (fun c s x => applyRotaryPosEmb x c s) cosL sinL xs

/-- Projection to per-head sequences: `proj(x).view(B, S, n, d)` then
`transpose(1, 2)` (source lines 315-326), head-major. -/
noncomputable def projHeads (W : Mat) (n d : ℕ) (x : List Vec) : List (List Vec) :=
  (List.range n).map (fun hd => x.map (fun xv => ((matVec W xv).drop (hd * d)).take d))

/-- Per-head RMS norm (`q_norm` / `k_norm`, source lines 320-321). -/
noncomputable def normHeads (w : Vec) (eps : ℝ) (hs : List (List Vec)) :
    List (List Vec) :=
  hs.map (fun hseq => hseq.map (rmsnorm w eps))

/-- Rotary application to every head (source lines 329-330). -/
noncomputable def ropeHeads (cosL sinL : List Vec) (hs : List (List Vec)) :
    List (List Vec) :=
  hs.map (ropeSeq cosL sinL)

/-- GQA expansion `repeat_interleave(ratio, dim=1)` guarded by
`gqa_ratio > 1` (source lines 340-342): each kv head replicated
contiguously. -/
noncomputable def repeatKV (r : ℕ) (hs : List (List Vec)) : List (List Vec) :=
  if 1 < r then hs.flatMap (fun hd => List.replicate r hd) else hs

/-- Embeds the causal mask entry of source lines 351-354:
`triu(full((S, total_len), -inf), diagonal = total_len - S + 1)`, so the
entry at query row `q`, key column `j` is `-inf` exactly when
`j - q >= total_len - S + 1` (as integers) and `0` otherwise.  Float
`-inf` is modelled as `⊥ : EReal`. -/
noncomputable def causalMaskEntry (S totalLen q j : ℕ) : EReal :=
  if (q : ℤ) + ((totalLen : ℤ) - (S : ℤ) + 1) ≤ (j : ℤ) then ⊥ else 0

/-- One row of `attn_weights + causal_mask` (source line 355): the raw
real score plus the mask value, in `EReal`. -/
noncomputable def maskedScoresRow (S totalLen q : ℕ) (score : ℕ → ℝ) : List EReal :=
  (List.range totalLen).map (fun j => (score j : EReal) + causalMaskEntry S totalLen q j)

/-- `exp` on a masked score: float `exp(-inf) = 0`. -/
noncomputable def expE (x : EReal) : ℝ :=
  if x = ⊥ then 0 else Real.exp x.toReal

/-- Softmax over one masked score row (source line 356). -/
noncomputable def softmaxRow (row : List EReal) : List ℝ :=
  row.map (fun x => expE x / (row.map expE).sum)

/-- `attn_weights @ v` for one query position: the weighted sum of the
value vectors, producing a `head_dim`-vector. -/
noncomputable def weightedSum (d : ℕ) (w : List ℝ) (vs : List Vec) : Vec :=
  (List.range d).map (fun di => (List.zipWith (fun wj vj => wj * vj.getD di 0) w vs).sum)

/-- One attention head (source lines 344-358): scaled scores against the
full cached keys, causal mask, softmax, weighted value sum. -/
noncomputable def attnHeadOut (S totalLen d : ℕ) (scale : ℝ) (qs ks vs : List Vec) :
    List Vec :=
  (List.range S).map (fun qi =>
    weightedSum d
      (softmaxRow (maskedScoresRow S totalLen qi (fun j => dot (qs.getD qi []) (ks.getD j []) * scale)))
      vs)

/-- Parameters of one `DecoderLayer` (source lines 283-302). -/
structure DecoderLayerParams where
  nHeads : ℕ
  nKvHeads : ℕ
  headDim : ℕ
  eps : ℝ
  inputLayernorm : Vec
  wq : Mat
  wk : Mat
  wv : Mat
  wo : Mat
  qNormW : Vec
  kNormW : Vec
  postAttnLayernorm : Vec
  gateProj : Mat
  upProj : Mat
  downProj : Mat

/-- SiLU activation `x * sigmoid(x)` (source line 366). -/
noncomputable def silu (a : ℝ) : ℝ := a / (1 + Real.exp (-a))

/-- Embeds `DecoderLayer.forward` (source lines 304-370).  Returns the
new hidden-state sequence and the present key / value caches; the
present caches are the past caches with the newly computed per-head
key/value sequences appended along the sequence axis (`torch.cat` at
lines 333-334), recorded before GQA expansion. -/
noncomputable def decoderLayerForward (L : DecoderLayerParams)
    (cosL sinL : List Vec) (pastK pastV : List (List Vec)) (h : List Vec) :
    List Vec × List (List Vec) × List (List Vec) :=
  let S := h.length
  let x := h.map (rmsnorm L.inputLayernorm L.eps)
  let qh := ropeHeads cosL sinL (normHeads L.qNormW L.eps (projHeads L.wq L.nHeads L.headDim x))
  let kh := ropeHeads cosL sinL (normHeads L.kNormW L.eps (projHeads L.wk L.nKvHeads L.headDim x))
  let vh := projHeads L.wv L.nKvHeads L.headDim x
  let presentK := List.zipWith (fun p n => p ++ n) pastK kh
  let presentV := List.zipWith (fun p n => p ++ n) pastV vh
  let kExp := repeatKV (L.nHeads / L.nKvHeads) presentK
  let vExp := repeatKV (L.nHeads / L.nKvHeads) presentV
  let totalLen := (kExp.headD []).length
  let scale := (Real.sqrt (L.headDim : ℝ))⁻¹
  let heads := List.zipWith
    (fun qs kv => attnHeadOut S totalLen L.headDim scale qs kv.1 kv.2) qh (kExp.zip vExp)
  let attnMerged := (List.range S).map (fun s => heads.flatMap (fun ho => ho.getD s []))
  let h1 := List.zipWith (fun r a => List.zipWith (fun b c => b + c) r a) h
    (attnMerged.map (matVec L.wo))
  let x2 := h1.map (rmsnorm L.postAttnLayernorm L.eps)
  let ffn := x2.map (fun xv =>
    matVec L.downProj
      (List.zipWith (fun a b => a * b) ((matVec L.gateProj xv).map silu) (matVec L.upProj xv)))
  let h2 := List.zipWith (fun r a => List.zipWith (fun b c => b + c) r a) h1 ffn
  (h2, presentK, presentV)

/-- Parameters of `Qwen3ASRDecoder` (source lines 373-395). -/
structure DecoderParams where
  theta : ℝ
  headDim : ℕ
  layers : List DecoderLayerParams
  normW : Vec
  eps : ℝ
  lmHead : Mat

/-- The layer loop of `Qwen3ASRDecoder.forward` (source lines 407-413):
thread the hidden states through the layers, pairing layer `i` with past
cache pair `i`, and collect the present pairs in order. -/
noncomputable def decoderRunLayers (cosL sinL : List Vec) :
    List DecoderLayerParams → List (List (List Vec) × List (List Vec)) → List Vec →
    List Vec × List (List (List Vec) × List (List Vec))
  | [], _, h => (h, [])
  | _ :: _, [], h => (h, [])
  | L :: ls, (pk, pv) :: ps, h =>
    let r := decoderLayerForward L cosL sinL pk pv h
    let rest := decoderRunLayers cosL sinL ls ps r.1
    (rest.1, (r.2.1, r.2.2) :: rest.2)

/-- Embeds `Qwen3ASRDecoder.forward` (source lines 397-418): rotary
tables from the position ids, the layer loop, final RMS norm and the
`lm_head` projection.  Returns the logits sequence and the per-layer
present key/value cache pairs. -/
noncomputable def decoderForward (P : DecoderParams) (inputsEmbeds : List Vec)
    (positionIds : List ℤ) (pastKvs : List (List (List Vec) × List (List Vec))) :
    List Vec × List (List (List Vec) × List (List Vec)) :=
  let cs := rotaryForward P.theta P.headDim positionIds
  let r := decoderRunLayers cs.1 cs.2 P.layers pastKvs inputsEmbeds
  ((r.1.map (rmsnorm P.normW P.eps)).map (matVec P.lmHead), r.2)

/-! Concrete sample data used to instantiate the theorems below on
closed inputs. -/

/-- A sample float32 scalar tensor. -/
noncomputable def demoF32 : Tensor := Tensor.mk DType.float32 [0] [1]

/-- A sample bfloat16 scalar tensor. -/
noncomputable def bf16T : Tensor := Tensor.mk DType.bfloat16 [0] [1]

/-- A sample float16 scalar tensor. -/
noncomputable def f16T : Tensor := Tensor.mk DType.float16 [0] [1]

/-- A sample 2x3 float32 embedding matrix tensor. -/
noncomputable def embT : Tensor := Tensor.mk DType.float32 [0, 0, 0, 0, 0, 0] [2, 3]

/-- An indexless store whose single shard resolves every name. -/
noncomputable def demoOkStore : MultiSafetensors :=
  MultiSafetensors.mk [("model.safetensors", fun _ => Except.ok demoF32)] none

/-- An indexless store whose single shard resolves every name to a
bfloat16 tensor. -/
noncomputable def bf16Store : MultiSafetensors :=
  MultiSafetensors.mk [("model.safetensors", fun _ => Except.ok bf16T)] none

/-- An indexless store whose single shard resolves every name to a
float16 tensor. -/
noncomputable def f16Store : MultiSafetensors :=
  MultiSafetensors.mk [("model.safetensors", fun _ => Except.ok f16T)] none

/-- An indexless store whose single shard fails every read. -/
noncomputable def demoFailStore : MultiSafetensors :=
  MultiSafetensors.mk [("model.safetensors", fun _ => Except.error "read error")] none

/-- A store with a non-empty name-to-shard index. -/
noncomputable def demoIndexedStore : MultiSafetensors :=
  MultiSafetensors.mk [("model-00001.safetensors", fun _ => Except.ok demoF32)]
    (some [("present.weight", "model-00001.safetensors")])

/-- An indexless store whose single shard resolves only the embedding
matrix name. -/
noncomputable def embStore : MultiSafetensors :=
  MultiSafetensors.mk
    [("model.safetensors",
      fun n => if n = "thinker.model.embed_tokens.weight" then Except.ok embT
               else Except.error "not found")] none

/-- A four-byte-per-element float32 encoding (all elements rendered as
four zero bytes), enough to instantiate the byte-length theorems. -/
def enc4 : ℝ → List ℕ := fun _ => [0, 0, 0, 0]

/-- A tiny concrete decoder layer: one query head, one kv head, head
dimension one, all weights one. -/
noncomputable def demoLayer : DecoderLayerParams :=
  DecoderLayerParams.mk 1 1 1 1 [1] [[1]] [[1]] [[1]] [[1]] [1] [1] [1] [[1]] [[1]] [[1]]

/-- A tiny concrete decoder: a single `demoLayer`. -/
noncomputable def demoDecoder : DecoderParams :=
  DecoderParams.mk 1 1 [demoLayer] [1] 1 [[1]]

/-- A five-step prefill input sequence (hidden size one). -/
noncomputable def embeds5 : List Vec := [[0], [0], [0], [0], [0]]

/-- A single-step decode input sequence. -/
noncomputable def embeds1 : List Vec := [[0]]

/-- An empty (prefill) past cache for one kv head. -/
noncomputable def pastEmpty : List (List Vec) := [[]]

/-- A past cache of length five for one kv head, head dimension one. -/
noncomputable def past5 : List (List Vec) := [[[0], [0], [0], [0], [0]]]

end Qwen3Export

namespace Qwen3Export

/-! Helper lemmas shared by the claim theorems. -/

/-- If every shard read of `name` raises, the fallback loop raises
`KeyError("Weight not found: name")`. -/
theorem tryShards_all_error (name : String) :
    ∀ files : List (String × Shard),
      (∀ p ∈ files, ∃ msg, p.2 name = Except.error msg) →
      tryShards files name = Except.error (PyErr.weightNotFound name) := by
  intro files
  induction files with
  | nil => intro _; rfl
  | cons p rest ih =>
    intro h
    obtain ⟨nm, sf⟩ := p
    obtain ⟨msg, hmsg⟩ := h (nm, sf) (List.mem_cons_self _ _)
    have hmsg' : sf name = Except.error msg := hmsg
    simp only [tryShards]
    rw [hmsg']
    exact ih (fun q hq => h q (List.mem_cons_of_mem _ hq))

/-- A name absent from the store makes `get_tensor` raise an error that
carries the name. -/
theorem get_tensor_absent (st : MultiSafetensors) (name : String)
    (habs : absentFrom st name) :
    ∃ e, st.get_tensor name = Except.error e ∧ errNamesWeight e name := by
  obtain ⟨files, wm⟩ := st
  cases wm with
  | none =>
    simp only [absentFrom] at habs
    simp only [MultiSafetensors.get_tensor]
    exact ⟨PyErr.weightNotFound name, tryShards_all_error name files habs, rfl⟩
  | some wm =>
    simp only [absentFrom] at habs
    simp only [MultiSafetensors.get_tensor]
    by_cases hne : wm = []
    · rw [if_pos hne]
      rw [if_pos hne] at habs
      exact ⟨PyErr.weightNotFound name, tryShards_all_error name files habs, rfl⟩
    · rw [if_neg hne]
      rw [if_neg hne] at habs
      rw [habs]
      exact ⟨PyErr.keyError name, rfl, rfl⟩

/-- `get_weight` propagates `get_tensor` errors unchanged. -/
theorem get_weight_error (st : MultiSafetensors) (name : String) (e : PyErr)
    (h : st.get_tensor name = Except.error e) :
    get_weight st name = Except.error e := by
  simp only [get_weight, h]
  rfl

/-- Sequential loading stops with the error of the first failing name:
if every name before it resolves and `name` fails, the whole load fails
with exactly that error. -/
theorem loadWeights_first_error (st : MultiSafetensors) (name : String)
    (post : List String) (e : PyErr) (he : get_weight st name = Except.error e) :
    ∀ pre : List String,
      (∀ m ∈ pre, ∃ t, get_weight st m = Except.ok t) →
      loadWeights st (pre ++ name :: post) = Except.error e := by
  intro pre
  induction pre with
  | nil =>
    intro _
    simp only [List.nil_append, loadWeights]
    rw [he]
  | cons m rest ih =>
    intro h
    obtain ⟨t, ht⟩ := h m (List.mem_cons_self m rest)
    simp only [List.cons_append, loadWeights, ht, List.append_eq,
      ih (fun x hx => h x (List.mem_cons_of_mem _ hx))]

/-- A successful load binds exactly the store's tensors, name by name:
nothing is substituted for a missing weight. -/
theorem loadWeights_ok_forall2 (st : MultiSafetensors) :
    ∀ (ns : List String) (ts : List Tensor),
      loadWeights st ns = Except.ok ts →
      List.Forall₂ (fun n t => get_weight st n = Except.ok t) ns ts := by
  intro ns
  induction ns with
  | nil =>
    intro ts h
    simp only [loadWeights] at h
    cases h
    exact List.Forall₂.nil
  | cons n rest ih =>
    intro ts h
    simp only [loadWeights] at h
    cases hn : get_weight st n with
    | error e => rw [hn] at h; cases h
    | ok t =>
      rw [hn] at h
      cases hr : loadWeights st rest with
      | error e => rw [hr] at h; cases h
      | ok ts0 =>
        rw [hr] at h
        cases h
        exact List.Forall₂.cons hn (ih ts0 hr)

/-- Elementwise byte length: a fixed four-byte encoding makes the blob
exactly four bytes per element. -/
theorem flatMap_length_four (enc : ℝ → List ℕ) (henc : ∀ x, (enc x).length = 4) :
    ∀ l : List ℝ, (l.flatMap enc).length = l.length * 4 := by
  intro l
  induction l with
  | nil => simp
  | cons a t ih => simp [ih, henc a]; ring

/-- Length of a three-way zip: the shortest input. -/
theorem length_zipWith3 {α β γ δ : Type} (f : α → β → γ → δ) :
    ∀ (a : List α) (b : List β) (c : List γ),
      (zipWith3 f a b c).length = min (min a.length b.length) c.length := by
  intro a
  induction a with
  | nil => intro b c; cases b <;> cases c <;> simp [zipWith3]
  | cons x xs ih =>
    intro b c
    cases b <;> cases c <;> simp [zipWith3, ih] <;> omega

/-- A decoder layer never changes the sequence length of the hidden
states (each residual add zips equal-length sequences). -/
theorem decoderLayer_len (L : DecoderLayerParams) (cosL sinL : List Vec)
    (pastK pastV : List (List Vec)) (h : List Vec) :
    (decoderLayerForward L cosL sinL pastK pastV h).1.length = h.length := by
  simp only [decoderLayerForward, List.length_zipWith, List.length_map, List.length_range]
  omega

/-- The present key cache of a layer is the past key cache with the
rotary-rotated, per-head-normalized new keys appended per head. -/
theorem decoderLayer_presentK (L : DecoderLayerParams) (cosL sinL : List Vec)
    (pastK pastV : List (List Vec)) (h : List Vec) :
    (decoderLayerForward L cosL sinL pastK pastV h).2.1 =
      List.zipWith (fun p n => p ++ n) pastK
        (ropeHeads cosL sinL (normHeads L.kNormW L.eps
          (projHeads L.wk L.nKvHeads L.headDim (h.map (rmsnorm L.inputLayernorm L.eps))))) :=
  rfl

/-- The present value cache of a layer is the past value cache with the
new per-head values appended per head. -/
theorem decoderLayer_presentV (L : DecoderLayerParams) (cosL sinL : List Vec)
    (pastK pastV : List (List Vec)) (h : List Vec) :
    (decoderLayerForward L cosL sinL pastK pastV h).2.2 =
      List.zipWith (fun p n => p ++ n) pastV
        (projHeads L.wv L.nKvHeads L.headDim (h.map (rmsnorm L.inputLayernorm L.eps))) :=
  rfl

/-- Shape of `projHeads`: one entry per head, each of the input sequence
length. -/
theorem projHeads_shape (W : Mat) (n d : ℕ) (xs : List Vec) :
    (projHeads W n d xs).length = n ∧ ∀ b ∈ projHeads W n d xs, b.length = xs.length := by
  constructor
  · simp [projHeads]
  · intro b hb
    simp only [projHeads, List.mem_map] at hb
    obtain ⟨hd, _, hrfl⟩ := hb
    rw [← hrfl]
    simp

/-- Shape of the rotary-rotated projected heads: one entry per head,
each truncated to the shortest of the cos table, the sin table and the
input sequence. -/
theorem ropeProjHeads_shape (cosL sinL : List Vec) (W : Mat) (w : Vec) (eps : ℝ)
    (n d : ℕ) (xs : List Vec) :
    (ropeHeads cosL sinL (normHeads w eps (projHeads W n d xs))).length = n ∧
    ∀ b ∈ ropeHeads cosL sinL (normHeads w eps (projHeads W n d xs)),
      b.length = min (min cosL.length sinL.length) xs.length := by
  constructor
  · simp [ropeHeads, normHeads, projHeads]
  · intro b hb
    simp only [ropeHeads, normHeads, projHeads, List.mem_map] at hb
    obtain ⟨u, ⟨v, ⟨hd, _, hv⟩, hu⟩, hrfl⟩ := hb
    rw [← hrfl, ← hu, ← hv]
    simp [ropeSeq, length_zipWith3]

/-- Appending same-length new sequences to same-length past sequences
head by head: every present head has length `Lp + S` and starts with its
past head. -/
theorem forall2_present {α : Type} (Lp S : ℕ) :
    ∀ (pk new : List (List α)), pk.length = new.length →
      (∀ a ∈ pk, a.length = Lp) → (∀ b ∈ new, b.length = S) →
      List.Forall₂ (fun p c => c.length = Lp + S ∧ c.take Lp = p) pk
        (List.zipWith (fun p n => p ++ n) pk new) := by
  intro pk
  induction pk with
  | nil => intro new _ _ _; exact List.Forall₂.nil
  | cons a t ih =>
    intro new hlen hpk hnew
    cases new with
    | nil => simp at hlen
    | cons b nt =>
      rw [List.zipWith_cons_cons]
      refine List.Forall₂.cons ⟨?_, ?_⟩
        (ih nt (by simpa using hlen)
          (fun u hu => hpk u (List.mem_cons_of_mem _ hu))
          (fun u hu => hnew u (List.mem_cons_of_mem _ hu)))
      · have ha := hpk a (List.mem_cons_self _ _)
        have hb := hnew b (List.mem_cons_self _ _)
        simp [ha, hb]
      · have ha := hpk a (List.mem_cons_self _ _)
        rw [← ha]
        exact List.take_left a b

/-- The layer loop pairs layer `i` with past pair `i`: its present pair
is the layer's forward on some threaded hidden state of the same
sequence length as the input. -/
theorem decoderRunLayers_get (cosL sinL : List Vec) :
    ∀ (layers : List DecoderLayerParams)
      (pasts : List (List (List Vec) × List (List Vec))) (h : List Vec) (i : ℕ)
      (Li : DecoderLayerParams) (pk pv : List (List Vec)),
      layers[i]? = some Li → pasts[i]? = some (pk, pv) →
      ∃ hh : List Vec, hh.length = h.length ∧
        (decoderRunLayers cosL sinL layers pasts h).2[i]? =
          some ((decoderLayerForward Li cosL sinL pk pv hh).2.1,
                (decoderLayerForward Li cosL sinL pk pv hh).2.2) := by
  intro layers
  induction layers with
  | nil => intro pasts h i Li pk pv hlay _; simp at hlay
  | cons L ls ih =>
    intro pasts h i Li pk pv hlay hp
    cases pasts with
    | nil => simp at hp
    | cons pr ps =>
      obtain ⟨qk, qv⟩ := pr
      cases i with
      | zero =>
        simp only [List.getElem?_cons_zero, Option.some.injEq] at hlay hp
        injection hp with h1 h2
        subst hlay h1 h2
        refine ⟨h, rfl, ?_⟩
        simp only [decoderRunLayers, List.getElem?_cons_zero]
      | succ n =>
        simp only [List.getElem?_cons_succ] at hlay hp
        obtain ⟨hh, hlen, hres⟩ :=
          ih ps ((decoderLayerForward L cosL sinL qk qv h).1) n Li pk pv hlay hp
        refine ⟨hh, ?_, ?_⟩
        · rw [hlen, decoderLayer_len]
        · simp only [decoderRunLayers, List.getElem?_cons_succ]
          exact hres

/-- An in-bounds optional lookup returns the defaulted element. -/
theorem getElem?_eq_some_getD (l : List ℝ) (n : ℕ) (h : n < l.length) :
    l[n]? = some (l.getD n 0) := by
  rw [List.getElem?_eq_getElem h, List.getD_eq_getElem _ _ h]

/-- Pointwise zip of two defined entries. -/
theorem zipWith_getElem?_some {α β γ : Type} (f : α → β → γ) (l1 : List α)
    (l2 : List β) (n : ℕ) (a : α) (b : β) (h1 : l1[n]? = some a)
    (h2 : l2[n]? = some b) : (List.zipWith f l1 l2)[n]? = some (f a b) := by
  rw [List.getElem?_zipWith', h1, h2]
  rfl

/-- Entry of `rotateHalf` in the first half: the negated entry from the
second half of the input. -/
theorem rotateHalf_getElem_lo (x : Vec) (D d : ℕ) (hx : x.length = D)
    (hD : 2 ∣ D) (hd : d < D / 2) :
    (rotateHalf x)[d]? = some (-(x.getD (d + D / 2) 0)) := by
  obtain ⟨k, hk⟩ := hD
  unfold rotateHalf
  rw [List.getElem?_append, if_pos (by simp [hx]; omega)]
  rw [List.getElem?_map, List.getElem?_drop]
  have hidx : x.length / 2 + d = d + D / 2 := by rw [hx]; omega
  rw [hidx, getElem?_eq_some_getD x (d + D / 2) (by omega)]
  rfl

/-- Entry of `rotateHalf` in the second half: the entry from the first
half of the input. -/
theorem rotateHalf_getElem_hi (x : Vec) (D d : ℕ) (hx : x.length = D)
    (hD : 2 ∣ D) (hd1 : D / 2 ≤ d) (hd2 : d < D) :
    (rotateHalf x)[d]? = some (x.getD (d - D / 2) 0) := by
  obtain ⟨k, hk⟩ := hD
  unfold rotateHalf
  rw [List.getElem?_append, if_neg (by simp [hx]; omega)]
  have hlen : ((x.drop (x.length / 2)).map (fun a => -a)).length = D - D / 2 := by
    simp [hx]
  rw [hlen]
  have hidx : d - (D - D / 2) = d - D / 2 := by omega
  rw [hidx]
  have htake : d - D / 2 < x.length / 2 := by omega
  simp only [List.getElem?_take, htake, if_pos]
  exact getElem?_eq_some_getD x (d - D / 2) (by omega)

/-! The claim theorems. -/

/-- C4: for a mel input of shape `[1, 128, 200]`, the three 3x3,
stride-2, padding-1 convolutions of the encoder stem map the time axis
200 to 25 and the mel-bin axis 128 to 16. -/
theorem c4_encoder_stem_shape : convStem3 200 = 25 ∧ convStem3 128 = 16 := by
  decide

/-- C9: for every frame count `T ≥ 1`, one stride-2/padding-1/kernel-3
convolution stage maps an axis of length `n` to `⌈n/2⌉`, and the
encoder's output sequence length is `⌈T/8⌉` (as naturals, `(T+1)/2` and
`(T+7)/8`). -/
theorem c9_encoder_len_ceil (T : ℕ) (h : 1 ≤ T) :
    convOutLen T 3 2 1 = (T + 1) / 2 ∧ encoderOutLen T = (T + 7) / 8 := by
  unfold encoderOutLen convStem3 convOutLen
  omega

/-- Witness for C9 at `T = 13` (not a multiple of 8): one stage gives 7,
and the stem gives `⌈13/8⌉ = 2`. -/
theorem c9_encoder_len_ceil_witness :
    1 ≤ 13 ∧ (convOutLen 13 3 2 1 = (13 + 1) / 2 ∧ encoderOutLen 13 = (13 + 7) / 8) :=
  ⟨by decide, c9_encoder_len_ceil 13 (by decide)⟩

/-- C10: the missing-name behaviour of `MultiSafetensors.get_tensor`
depends on the index.  With a truthy name-to-shard index, a name absent
from the index raises the plain `KeyError(name)` from the dict lookup
(not the "Weight not found" error); without an index, if every shard
read raises — whatever the exception — the uniform
`KeyError("Weight not found: name")` is raised. -/
theorem c10_index_vs_fallback_errors :
    (∀ (st : MultiSafetensors) (wm : List (String × String)) (name : String),
        st.weight_map = some wm → wm ≠ [] → wm.lookup name = none →
        st.get_tensor name = Except.error (PyErr.keyError name)) ∧
    (∀ (st : MultiSafetensors) (name : String),
        st.weight_map = none →
        (∀ p ∈ st.files, ∃ msg, p.2 name = Except.error msg) →
        st.get_tensor name = Except.error (PyErr.weightNotFound name)) := by
  constructor
  · intro st wm name hwm hne hlk
    obtain ⟨files, wm0⟩ := st
    cases hwm
    simp only [MultiSafetensors.get_tensor]
    rw [if_neg hne, hlk]
  · intro st name hwm hfail
    obtain ⟨files, wm0⟩ := st
    cases hwm
    simp only [MultiSafetensors.get_tensor]
    exact tryShards_all_error name files hfail

/-- Witness for C10: a concrete indexed store yields the plain
`KeyError`, and a concrete indexless store with failing shard reads
yields the "Weight not found" error. -/
theorem c10_index_vs_fallback_errors_witness :
    demoIndexedStore.get_tensor "absent.weight" =
      Except.error (PyErr.keyError "absent.weight") ∧
    demoFailStore.get_tensor "absent.weight" =
      Except.error (PyErr.weightNotFound "absent.weight") := by
  constructor
  · exact c10_index_vs_fallback_errors.1 demoIndexedStore
      [("present.weight", "model-00001.safetensors")] "absent.weight" rfl
      (by decide) (by decide)
  · exact c10_index_vs_fallback_errors.2 demoFailStore "absent.weight" rfl
      (by
        intro p hp
        simp only [demoFailStore, List.mem_singleton] at hp
        subst hp
        exact ⟨"read error", rfl⟩)

/-- C5: a weight name absent from the store makes `get_tensor` raise an
error identifying that name; decoder binding aborts at the first
unresolved name with that same error; the decoder export stage
propagates it before any export work; and a successful load binds
exactly the store's tensors (never a zero-filled substitute). -/
theorem c5_weight_not_found_aborts (st : MultiSafetensors) (nLayers : ℕ)
    (pre post : List String) (name : String)
    (hsplit : decoderWeightNames nLayers = pre ++ name :: post)
    (hpre : ∀ m ∈ pre, ∃ t, get_weight st m = Except.ok t)
    (habs : absentFrom st name) :
    (∃ e, st.get_tensor name = Except.error e ∧ errNamesWeight e name) ∧
    (∃ e, loadDecoderWeights st nLayers = Except.error e ∧ errNamesWeight e name) ∧
    (∀ args diff, ∃ e,
        exportDecoderStage st nLayers args diff = Except.error e ∧ errNamesWeight e name) ∧
    (∀ (st' : MultiSafetensors) (ns : List String) (ts : List Tensor),
        loadWeights st' ns = Except.ok ts →
        List.Forall₂ (fun n t => get_weight st' n = Except.ok t) ns ts) := by
  obtain ⟨e, he, hnm⟩ := get_tensor_absent st name habs
  have hw : get_weight st name = Except.error e := get_weight_error st name e he
  have hload : loadDecoderWeights st nLayers = Except.error e := by
    unfold loadDecoderWeights
    rw [hsplit]
    exact loadWeights_first_error st name post e hw pre hpre
  refine ⟨⟨e, he, hnm⟩, ⟨e, hload, hnm⟩, ?_, loadWeights_ok_forall2⟩
  intro args diff
  refine ⟨e, ?_, hnm⟩
  unfold exportDecoderStage
  rw [hload]

/-- Witness for C5: the very first decoder weight name (with zero
layers, the final norm weight) is unresolvable in a store whose only
shard fails every read; binding and the export stage fail with the
"Weight not found" error naming it. -/
theorem c5_weight_not_found_aborts_witness :
    (∃ e, demoFailStore.get_tensor "thinker.model.norm.weight" = Except.error e ∧
        errNamesWeight e "thinker.model.norm.weight") ∧
    (∃ e, loadDecoderWeights demoFailStore 0 = Except.error e ∧
        errNamesWeight e "thinker.model.norm.weight") ∧
    (∀ args diff, ∃ e,
        exportDecoderStage demoFailStore 0 args diff = Except.error e ∧
        errNamesWeight e "thinker.model.norm.weight") ∧
    (∀ (st' : MultiSafetensors) (ns : List String) (ts : List Tensor),
        loadWeights st' ns = Except.ok ts →
        List.Forall₂ (fun n t => get_weight st' n = Except.ok t) ns ts) :=
  c5_weight_not_found_aborts demoFailStore 0 [] ["thinker.lm_head.weight"]
    "thinker.model.norm.weight" rfl (by simp)
    (by
      intro p hp
      simp only [demoFailStore, List.mem_singleton] at hp
      subst hp
      exact ⟨"read error", rfl⟩)

/-- C6 is a code bug: `--skip-validation` is accepted by the argument
parser (and its own help text says it skips validation), but
`args.skip_validation` is never consulted afterwards, so the decoder
validation assert still runs and still fails when the max absolute
difference reaches the 1e-4 tolerance. -/
theorem c6_skip_validation_flag_ignored :
    (parseArgs ["--skip-validation"]).skipValidation = true ∧
    exportDecoderStage demoOkStore 0 (parseArgs ["--skip-validation"]) (2 / 10000) =
      Except.error (PyErr.assertionError "Decoder validation failed") := by
  refine ⟨rfl, ?_⟩
  have hload : loadDecoderWeights demoOkStore 0 = Except.ok [demoF32, demoF32] := rfl
  unfold exportDecoderStage
  rw [hload]
  unfold decoderValidate
  rw [if_neg (by norm_num)]

/-- C7 counterexample: a float16 tensor — a reduced-precision dtype —
is returned by `get_weight` unchanged, still float16, not upcast to
float32; only bfloat16 is upcast. -/
theorem c7_float16_not_upcast :
    get_weight f16Store "w" = Except.ok f16T ∧ f16T.dtype ≠ DType.float32 := by
  constructor
  · rfl
  · decide

/-- C7 as amended: `get_weight` upcasts exactly the bfloat16 tensors to
float32 (keeping data and shape); every other dtype, float16 included,
is returned unchanged. -/
theorem c7_bf16_upcast_only (st : MultiSafetensors) (name : String) (t : Tensor)
    (h : st.get_tensor name = Except.ok t) :
    (t.dtype = DType.bfloat16 →
        get_weight st name = Except.ok (Tensor.mk DType.float32 t.data t.shape)) ∧
    (t.dtype ≠ DType.bfloat16 → get_weight st name = Except.ok t) := by
  constructor
  · intro hd
    simp only [get_weight, h, Except.map, if_pos hd]
  · intro hd
    simp only [get_weight, h, Except.map, if_neg hd]

/-- Witness for the amended C7: a bfloat16 tensor comes back float32
with the same data and shape, and a float16 tensor comes back as is. -/
theorem c7_bf16_upcast_only_witness :
    get_weight bf16Store "w" = Except.ok (Tensor.mk DType.float32 bf16T.data bf16T.shape) ∧
    get_weight f16Store "v" = Except.ok f16T :=
  ⟨(c7_bf16_upcast_only bf16Store "w" bf16T rfl).1 rfl,
   (c7_bf16_upcast_only f16Store "v" f16T rfl).2 (by decide)⟩

/-- C8: the exported embedding blob is exactly the flat row-major data
rendered four bytes per float32 element with no header, so its byte
length is `vocab * hidden * 4` for every vocabulary and hidden size. -/
theorem c8_embed_bytes_length (enc : ℝ → List ℕ) (st : MultiSafetensors)
    (t : Tensor) (vocab hidden : ℕ)
    (henc : ∀ x, (enc x).length = 4)
    (hget : get_weight st "thinker.model.embed_tokens.weight" = Except.ok t)
    (hshape : t.shape = [vocab, hidden])
    (hdata : t.data.length = vocab * hidden) :
    export_embeddings enc st = Except.ok (t.data.flatMap enc) ∧
    (tensorBytes enc t).length = vocab * hidden * 4 := by
  constructor
  · simp only [export_embeddings, hget, Except.map, tensorBytes]
  · rw [tensorBytes, flatMap_length_four enc henc, hdata]

/-- Witness for C8 on a concrete 2x3 float32 embedding matrix: the blob
is produced and has `2 * 3 * 4 = 24` bytes. -/
theorem c8_embed_bytes_length_witness :
    export_embeddings enc4 embStore = Except.ok (embT.data.flatMap enc4) ∧
    (tensorBytes enc4 embT).length = 2 * 3 * 4 :=
  c8_embed_bytes_length enc4 embStore embT 2 3 (fun _ => rfl) rfl rfl rfl

/-- C1: for every decoder layer `i` whose past key/value caches have
`Li.nKvHeads` heads of sequence length `Lp`, and every step of length
`S ≥ 1` (embeddings and position ids of length `S`), the decoder
forward pass returns for layer `i` present caches in which every head
has sequence length exactly `Lp + S` and carries the supplied past head
as unchanged prefix (present = past ++ new along the sequence axis). -/
theorem c1_present_cache_growth (P : DecoderParams) (embeds : List Vec)
    (posIds : List ℤ) (pasts : List (List (List Vec) × List (List Vec)))
    (i Lp S : ℕ) (Li : DecoderLayerParams) (pk pv : List (List Vec))
    (hS : embeds.length = S) (hS1 : 1 ≤ S) (hpos : posIds.length = S)
    (hlay : P.layers[i]? = some Li) (hp : pasts[i]? = some (pk, pv))
    (hpk1 : pk.length = Li.nKvHeads) (hpv1 : pv.length = Li.nKvHeads)
    (hpk : ∀ a ∈ pk, a.length = Lp) (hpv : ∀ a ∈ pv, a.length = Lp) :
    ∃ prs, (decoderForward P embeds posIds pasts).2[i]? = some prs ∧
      List.Forall₂ (fun p c => c.length = Lp + S ∧ c.take Lp = p) pk prs.1 ∧
      List.Forall₂ (fun p c => c.length = Lp + S ∧ c.take Lp = p) pv prs.2 := by
  obtain ⟨hh, hlen, hres⟩ :=
    decoderRunLayers_get (rotaryForward P.theta P.headDim posIds).1
      (rotaryForward P.theta P.headDim posIds).2 P.layers pasts embeds i Li pk pv hlay hp
  have hcos : (rotaryForward P.theta P.headDim posIds).1.length = S := by
    simp only [rotaryForward, List.length_map]
    exact hpos
  have hsin : (rotaryForward P.theta P.headDim posIds).2.length = S := by
    simp only [rotaryForward, List.length_map]
    exact hpos
  have hhS : hh.length = S := by rw [hlen, hS]
  refine ⟨_, hres, ?_, ?_⟩
  · rw [decoderLayer_presentK]
    obtain ⟨hkn, hkm⟩ := ropeProjHeads_shape (rotaryForward P.theta P.headDim posIds).1
      (rotaryForward P.theta P.headDim posIds).2 Li.wk Li.kNormW Li.eps Li.nKvHeads
      Li.headDim (hh.map (rmsnorm Li.inputLayernorm Li.eps))
    refine forall2_present Lp S pk _ (by rw [hpk1, hkn]) hpk ?_
    intro b hb
    rw [hkm b hb, hcos, hsin, List.length_map, hhS]
    simp
  · rw [decoderLayer_presentV]
    obtain ⟨hvn, hvm⟩ := projHeads_shape Li.wv Li.nKvHeads Li.headDim
      (hh.map (rmsnorm Li.inputLayernorm Li.eps))
    refine forall2_present Lp S pv _ (by rw [hpv1, hvn]) hpv ?_
    intro b hb
    rw [hvm b hb, List.length_map, hhS]

/-- Witness for C1: on a one-layer decoder, a prefill with past length 0
and step length 5 yields present caches of length `0 + 5 = 5`, and a
following step with past length 5 and step length 1 yields present
caches of length `5 + 1 = 6`, each with the past as prefix. -/
theorem c1_present_cache_growth_witness :
    (∃ prs, (decoderForward demoDecoder embeds5 [0, 1, 2, 3, 4]
        [(pastEmpty, pastEmpty)]).2[0]? = some prs ∧
      List.Forall₂ (fun p c => c.length = 0 + 5 ∧ c.take 0 = p) pastEmpty prs.1 ∧
      List.Forall₂ (fun p c => c.length = 0 + 5 ∧ c.take 0 = p) pastEmpty prs.2) ∧
    (∃ prs, (decoderForward demoDecoder embeds1 [5] [(past5, past5)]).2[0]? = some prs ∧
      List.Forall₂ (fun p c => c.length = 5 + 1 ∧ c.take 5 = p) past5 prs.1 ∧
      List.Forall₂ (fun p c => c.length = 5 + 1 ∧ c.take 5 = p) past5 prs.2) := by
  constructor
  · exact c1_present_cache_growth demoDecoder embeds5 [0, 1, 2, 3, 4]
      [(pastEmpty, pastEmpty)] 0 0 5 demoLayer pastEmpty pastEmpty rfl (by decide)
      rfl rfl rfl rfl rfl (by simp [pastEmpty]) (by simp [pastEmpty])
  · exact c1_present_cache_growth demoDecoder embeds1 [5] [(past5, past5)]
      0 5 1 demoLayer past5 past5 rfl (by decide) rfl rfl rfl rfl rfl
      (by simp [past5]) (by simp [past5])

/-- C2: in the decoder attention with step length `S` and total cache
length `Lp + S`, the causal mask entry at query position `q` and key
position `j` is `-inf` exactly when `j > Lp + q`, and `0` otherwise (in
particular on every past-cache position); and after softmax the
attention weight on any strictly-future new-step key position is
exactly zero. -/
theorem c2_causal_mask_zeroes_future (Lp S q j : ℕ) (score : ℕ → ℝ)
    (hq : q < S) (hj : j < Lp + S) :
    (causalMaskEntry S (Lp + S) q j = ⊥ ↔ Lp + q < j) ∧
    (j ≤ Lp + q → causalMaskEntry S (Lp + S) q j = 0) ∧
    (Lp + q < j →
      (softmaxRow (maskedScoresRow S (Lp + S) q score))[j]? = some 0) := by
  have hcond : ((q : ℤ) + (((Lp + S : ℕ) : ℤ) - (S : ℤ) + 1) ≤ (j : ℤ)) ↔ Lp + q < j := by
    push_cast
    omega
  have h1 : causalMaskEntry S (Lp + S) q j = ⊥ ↔ Lp + q < j := by
    unfold causalMaskEntry
    by_cases hc : (q : ℤ) + (((Lp + S : ℕ) : ℤ) - (S : ℤ) + 1) ≤ (j : ℤ)
    · rw [if_pos hc]
      simp [hcond.mp hc]
    · rw [if_neg hc]
      constructor
      · intro h0
        exact absurd h0 (by simp)
      · intro hlt
        exact absurd (hcond.mpr hlt) hc
  refine ⟨h1, ?_, ?_⟩
  · intro hle
    unfold causalMaskEntry
    rw [if_neg (fun hc => absurd (hcond.mp hc) (by omega))]
  · intro hlt
    have hrow : (maskedScoresRow S (Lp + S) q score)[j]? =
        some ((score j : EReal) + causalMaskEntry S (Lp + S) q j) := by
      unfold maskedScoresRow
      rw [List.getElem?_map]
      simp [List.getElem?_range, hj]
    unfold softmaxRow
    rw [List.getElem?_map, hrow]
    have hmask : causalMaskEntry S (Lp + S) q j = ⊥ := h1.mpr hlt
    rw [hmask]
    have hbot : (score j : EReal) + ⊥ = ⊥ := by simp
    rw [hbot]
    have hexp : expE ⊥ = 0 := by
      unfold expE
      rw [if_pos rfl]
    simp [hexp]

/-- Witness for C2 at `Lp = 2`, `S = 3`, `q = 1`: key position 4 (a
strictly-future new-step position) is masked and gets softmax weight
exactly 0, while key position 1 (a past-cache position) has mask value
0. -/
theorem c2_causal_mask_zeroes_future_witness :
    causalMaskEntry 3 (2 + 3) 1 4 = ⊥ ∧
    (softmaxRow (maskedScoresRow 3 (2 + 3) 1 (fun _ => 0)))[4]? = some 0 ∧
    causalMaskEntry 3 (2 + 3) 1 1 = 0 :=
  ⟨(c2_causal_mask_zeroes_future 2 3 1 4 (fun _ => 0) (by decide) (by decide)).1.mpr
      (by decide),
   (c2_causal_mask_zeroes_future 2 3 1 4 (fun _ => 0) (by decide) (by decide)).2.2
      (by decide),
   (c2_causal_mask_zeroes_future 2 3 1 1 (fun _ => 0) (by decide) (by decide)).2.1
      (by decide)⟩

/-- C3: the rotary embedding builds, for position `p` and (even) head
dimension `D`, angle `i` equal to `p * theta^(-2i/D)` for `i < D/2`;
the cos/sin vectors have length `D` with entry `i` equal to entry
`i + D/2`; and the rotation applies
`out = x * cos + concat(-x[second half], x[first half]) * sin`
entrywise. -/
theorem c3_rotary_embedding (theta p : ℝ) (D i : ℕ) (x c s : Vec)
    (ht : 0 < theta) (hD : 2 ∣ D) (hi : i < D / 2)
    (hx : x.length = D) (hc : c.length = D) (hs : s.length = D) :
    ((rotaryAngles theta D p)[i]? =
      some (p * theta ^ (-(2 * (i : ℝ)) / (D : ℝ)))) ∧
    ((rotaryCos theta D p).length = D ∧ (rotarySin theta D p).length = D) ∧
    ((rotaryCos theta D p)[i]? = (rotaryCos theta D p)[i + D / 2]? ∧
     (rotarySin theta D p)[i]? = (rotarySin theta D p)[i + D / 2]?) ∧
    (∀ d, d < D / 2 →
      (applyRotaryPosEmb x c s)[d]? =
        some (x.getD d 0 * c.getD d 0 + -(x.getD (d + D / 2) 0) * s.getD d 0)) ∧
    (∀ d, D / 2 ≤ d → d < D →
      (applyRotaryPosEmb x c s)[d]? =
        some (x.getD d 0 * c.getD d 0 + x.getD (d - D / 2) 0 * s.getD d 0)) := by
  obtain ⟨k, hk⟩ := hD
  have hkd : D / 2 = k := by omega
  have hffl : (invFreq theta D).length = k := by
    simp only [invFreq, List.length_map, List.length_range']
    omega
  have halen : (rotaryAngles theta D p).length = k := by
    simp only [rotaryAngles, List.length_map, hffl]
  refine ⟨?_, ?_, ?_, ?_, ?_⟩
  · unfold rotaryAngles invFreq
    rw [List.getElem?_map, List.getElem?_map]
    have hir : i < (D + 1) / 2 := by omega
    simp only [List.getElem?_range', hir, if_pos, Option.map_some']
    have hval : p * (1 / theta ^ (((0 + 2 * i : ℕ) : ℝ) / (D : ℝ))) =
        p * theta ^ (-(2 * (i : ℝ)) / (D : ℝ)) := by
      rw [neg_div, Real.rpow_neg ht.le, one_div]
      norm_num
    rw [hval]
  · constructor
    · simp only [rotaryCos, rotaryEmbRow, List.length_map, List.length_append, halen]
      omega
    · simp only [rotarySin, rotaryEmbRow, List.length_map, List.length_append, halen]
      omega
  · constructor
    · unfold rotaryCos rotaryEmbRow
      rw [List.getElem?_map, List.getElem?_map]
      rw [List.getElem?_append, if_pos (by rw [halen]; omega)]
      rw [List.getElem?_append, if_neg (by rw [halen]; omega)]
      rw [show i + D / 2 - (rotaryAngles theta D p).length = i from by rw [halen]; omega]
    · unfold rotarySin rotaryEmbRow
      rw [List.getElem?_map, List.getElem?_map]
      rw [List.getElem?_append, if_pos (by rw [halen]; omega)]
      rw [List.getElem?_append, if_neg (by rw [halen]; omega)]
      rw [show i + D / 2 - (rotaryAngles theta D p).length = i from by rw [halen]; omega]
  · intro d hd
    have h1 : (List.zipWith (fun a b => a * b) x c)[d]? =
        some (x.getD d 0 * c.getD d 0) :=
      zipWith_getElem?_some _ x c d _ _
        (getElem?_eq_some_getD x d (by omega)) (getElem?_eq_some_getD c d (by omega))
    have h2 : (List.zipWith (fun a b => a * b) (rotateHalf x) s)[d]? =
        some (-(x.getD (d + D / 2) 0) * s.getD d 0) :=
      zipWith_getElem?_some _ (rotateHalf x) s d _ _
        (rotateHalf_getElem_lo x D d hx ⟨k, hk⟩ hd)
        (getElem?_eq_some_getD s d (by omega))
    exact zipWith_getElem?_some _ _ _ d _ _ h1 h2
  · intro d hd1 hd2
    have h1 : (List.zipWith (fun a b => a * b) x c)[d]? =
        some (x.getD d 0 * c.getD d 0) :=
      zipWith_getElem?_some _ x c d _ _
        (getElem?_eq_some_getD x d (by omega)) (getElem?_eq_some_getD c d (by omega))
    have h2 : (List.zipWith (fun a b => a * b) (rotateHalf x) s)[d]? =
        some (x.getD (d - D / 2) 0 * s.getD d 0) :=
      zipWith_getElem?_some _ (rotateHalf x) s d _ _
        (rotateHalf_getElem_hi x D d hx ⟨k, hk⟩ hd1 hd2)
        (getElem?_eq_some_getD s d (by omega))
    exact zipWith_getElem?_some _ _ _ d _ _ h1 h2

/-- Witness for C3 at `theta = 2`, `p = 1`, `D = 2`: the cos table has
length 2 with duplicated halves, and the rotation formula holds on the
concrete vectors `x = [1, 2]`, `cos = sin = [1, 1]`. -/
theorem c3_rotary_embedding_witness :
    (rotaryCos 2 2 1).length = 2 ∧
    (rotaryCos 2 2 1)[0]? = (rotaryCos 2 2 1)[0 + 2 / 2]? ∧
    (applyRotaryPosEmb [1, 2] [1, 1] [1, 1])[0]? =
      some (([1, 2] : Vec).getD 0 0 * ([1, 1] : Vec).getD 0 0 +
        -(([1, 2] : Vec).getD (0 + 2 / 2) 0) * ([1, 1] : Vec).getD 0 0) := by
  have h := c3_rotary_embedding 2 1 2 0 [1, 2] [1, 1] [1, 1] (by norm_num)
    (by decide) (by decide) rfl rfl rfl
  exact ⟨h.2.1.1, h.2.2.1.1, h.2.2.2.1 0 (by decide)⟩

end Qwen3Export
